import Mathlib

/-!
Shallow embedding of `src/config/from_document.rs`: the lowering pass from a
parsed GraphQL service document to the `Config` IR. Rust's
`Valid<A> = Result<A, ValidationError<String>>` is modelled as an inductive
with an explicit error list; `BTreeMap` is modelled as a key-sorted
association list with an ordered insert; the external directive codecs
(`DirectiveCodec::from_directive`, outside this file's source) are a
parameter structure of decoding functions.
-/

namespace Tailcall

/-- One error of a `ValidationError<String>`: a message and its trace path
(the labels prepended by `trace`). -/
structure Cause where
  message : String
  trace : List String
deriving Repr, DecidableEq

/-- `Valid<A> = Result<A, ValidationError<String>>` where `ValidationError`
is an ordered collection of causes. -/
inductive Valid (A : Type) where
  | ok (a : A)
  | error (e : List Cause)
deriving Repr, DecidableEq

/-- `Valid::fail(message)`: a single-error failure with an empty trace. -/
def Valid.fail {A : Type} (message : String) : Valid A :=
  Valid.error [{ message := message, trace := [] }]

/-- `ValidExtensions::trace(label)`: prepend `label` to every error's path. -/
def Valid.trace {A : Type} (v : Valid A) (label : String) : Valid A :=
  match v with
  | Valid.ok a => Valid.ok a
  | Valid.error es => Valid.error (es.map fun c => { c with trace := label :: c.trace })

/-- Rust's `?` on a `Result`: short-circuit on the error. -/
def Valid.bind {A B : Type} : Valid A → (A → Valid B) → Valid B
  | Valid.ok a, f => f a
  | Valid.error e, _ => Valid.error e

/-- `Result::map`. -/
def Valid.map {A B : Type} (f : A → B) : Valid A → Valid B
  | Valid.ok a => Valid.ok (f a)
  | Valid.error e => Valid.error e

/-- `Result::ok()`: drop the error, keep the value. -/
def Valid.toOption {A : Type} : Valid A → Option A
  | Valid.ok a => some a
  | Valid.error _ => none

/-- Modelled from the spec: the JSON-like structured value an argument's
default literal converts into (`serde_json::Value` is outside this
repository's source); only its identity matters here. -/
structure JsonValue where
  val : Nat
deriving Repr, DecidableEq

/-- `config::Server`, the decoded `@server` options (its fields live outside
this source file; an abstract payload stands for them). -/
structure Server where
  val : Nat := 0
deriving Repr, DecidableEq

/-- `config::Upstream`, the decoded `@upstream` options. -/
structure Upstream where
  val : Nat := 0
deriving Repr, DecidableEq

/-- `config::Http`, the decoded `@http` fetch spec. -/
structure Http where
  val : Nat := 0
deriving Repr, DecidableEq

/-- `config::ModifyField`, the decoded `@modify` directive. -/
structure ModifyField where
  val : Nat := 0
deriving Repr, DecidableEq

/-- `config::InlineType`, the decoded `@inline` directive. -/
structure InlineType where
  val : Nat := 0
deriving Repr, DecidableEq

/-- `config::Unsafe`, the decoded `@unsafe` directive. -/
structure UnsafeOperation where
  val : Nat := 0
deriving Repr, DecidableEq

/-- `config::group_by::GroupBy`, the decoded `@groupBy` directive. -/
structure GroupBy where
  val : Nat := 0
deriving Repr, DecidableEq

/-- `config::ConstField`, the decoded `@const` directive. -/
structure ConstField where
  val : Nat := 0
deriving Repr, DecidableEq

/-- `async_graphql::Positioned<A>`: a node with position information; only
the `node` field is ever read by the lowering pass. -/
structure Positioned (A : Type) where
  node : A
deriving Repr, DecidableEq

/-- A parsed constant value (directive argument / default-value literal).
The lowering pass never inspects its structure — it only hands it to the
external codecs and to the JSON conversion — so the compound constructors
of `async_graphql::ConstValue` are elided. -/
inductive ConstValue where
  | null
  | boolean (b : Bool)
  | number (n : Int)
  | str (s : String)
deriving Repr, DecidableEq

/-- `ConstDirective`: a named directive with constant arguments. -/
structure ConstDirective where
  name : Positioned String
  arguments : List (Positioned String × Positioned ConstValue)
deriving Repr, DecidableEq

/-- `BaseType`: a named type or a list type. `List(Box<Type>)` is inlined as
the inner type's `base` and `nullable` fields. -/
inductive BaseType where
  | named (name : String)
  | list (base : BaseType) (nullable : Bool)
deriving Repr, DecidableEq

/-- `async_graphql::parser::types::Type`: a type reference, `base` plus the
outer nullability flag. (Named `GqlType`: `Type` is a Lean keyword.) -/
structure GqlType where
  base : BaseType
  nullable : Bool
deriving Repr, DecidableEq

/-- `InputValueDefinition`: an argument or input-object field. -/
structure InputValueDefinition where
  name : Positioned String
  ty : Positioned GqlType
  description : Option (Positioned String)
  directives : List (Positioned ConstDirective)
  default_value : Option (Positioned ConstValue)
deriving Repr, DecidableEq

/-- `FieldDefinition`: a field of an object or interface type. -/
structure FieldDefinition where
  name : Positioned String
  ty : Positioned GqlType
  description : Option (Positioned String)
  arguments : List (Positioned InputValueDefinition)
  directives : List (Positioned ConstDirective)
deriving Repr, DecidableEq

/-- `ObjectType`: fields and implemented interfaces. -/
structure ObjectType where
  implements : List (Positioned String)
  fields : List (Positioned FieldDefinition)
deriving Repr, DecidableEq

/-- `InterfaceType`: same shape as `ObjectType`. -/
structure InterfaceType where
  implements : List (Positioned String)
  fields : List (Positioned FieldDefinition)
deriving Repr, DecidableEq

/-- `EnumValueDefinition`: one enum variant (only its name is read). -/
structure EnumValueDefinition where
  value : Positioned String
deriving Repr, DecidableEq

/-- `EnumType`. -/
structure EnumType where
  values : List (Positioned EnumValueDefinition)
deriving Repr, DecidableEq

/-- `InputObjectType`. -/
structure InputObjectType where
  fields : List (Positioned InputValueDefinition)
deriving Repr, DecidableEq

/-- `UnionType`. -/
structure UnionType where
  members : List (Positioned String)
deriving Repr, DecidableEq

/-- `TypeKind`: the six kinds of type definition. -/
inductive TypeKind where
  | scalar
  | object (o : ObjectType)
  | interface (i : InterfaceType)
  | union (u : UnionType)
  | enum (e : EnumType)
  | inputObject (io : InputObjectType)
deriving Repr, DecidableEq

/-- `TypeDefinition`. -/
structure TypeDefinition where
  name : Positioned String
  description : Option (Positioned String)
  kind : TypeKind
deriving Repr, DecidableEq

/-- `SchemaDefinition`: directives and the root operation type names. -/
structure SchemaDefinition where
  directives : List (Positioned ConstDirective)
  query : Option (Positioned String)
  mutation : Option (Positioned String)
  subscription : Option (Positioned String)
deriving Repr, DecidableEq

/-- `TypeSystemDefinition`. -/
inductive TypeSystemDefinition where
  | schema (s : Positioned SchemaDefinition)
  | typeDef (t : Positioned TypeDefinition)
  | directiveDef
deriving Repr, DecidableEq

/-- `ServiceDocument`. -/
structure ServiceDocument where
  definitions : List TypeSystemDefinition
deriving Repr, DecidableEq

/-- Modelled from the spec: the `DirectiveCodec` registry. Each IR fragment
type that can originate from a directive provides
`from_directive(directive) -> Valid<T>`; those implementations, and
serde_json's conversion of a default-value literal (which may fail, hence
`Option`), live outside this file's source, so the lowering pass is
parameterized over them. -/
structure Codecs where
  serverFromDirective : ConstDirective → Valid Server
  upstreamFromDirective : ConstDirective → Valid Upstream
  httpFromDirective : ConstDirective → Valid Http
  modifyFromDirective : ConstDirective → Valid ModifyField
  inlineFromDirective : ConstDirective → Valid InlineType
  unsafeFromDirective : ConstDirective → Valid UnsafeOperation
  groupByFromDirective : ConstDirective → Valid GroupBy
  constFromDirective : ConstDirective → Valid ConstField
  toJsonValue : ConstValue → Option JsonValue

/-- `config::Arg`. -/
structure Arg where
  type_of : String
  list : Bool
  required : Bool
  doc : Option String
  modify : Option ModifyField
  default_value : Option JsonValue
deriving Repr, DecidableEq

/-- `config::Field`. -/
structure Field where
  type_of : String
  list : Bool
  required : Bool
  list_type_required : Bool
  args : List (String × Arg)
  doc : Option String
  modify : Option ModifyField
  inline : Option InlineType
  http : Option Http
  unsafe_operation : Option UnsafeOperation
  group_by : Option GroupBy
  const_field : Option ConstField
deriving Repr, DecidableEq

/-- `config::Type` (named `ConfigType`: `Type` is a Lean keyword). `Default`
gives empty fields, no doc, not an interface, no implements, no variants,
not a scalar. -/
structure ConfigType where
  fields : List (String × Field) := []
  doc : Option String := none
  interface : Bool := false
  implements : List String := []
  variants : Option (List String) := none
  scalar : Bool := false
deriving Repr, DecidableEq

/-- `config::Union`. -/
structure Union where
  types : List String
  doc : Option String
deriving Repr, DecidableEq

/-- `config::RootSchema`. -/
structure RootSchema where
  query : Option String
  mutation : Option String
  subscription : Option String
deriving Repr, DecidableEq

/-- `config::GraphQL`. -/
structure GraphQL where
  schema : RootSchema
  types : List (String × ConfigType)
  unions : List (String × Union)
deriving Repr, DecidableEq

/-- `config::Config`. -/
structure Config where
  server : Server
  upstream : Upstream
  graphql : GraphQL
deriving Repr, DecidableEq

/-- Lexicographic comparison of character lists by scalar value: the order
`Ord` gives Rust's `String` (byte-wise UTF-8 comparison coincides with
scalar-value lexicographic comparison). -/
def charListLt : List Char → List Char → Bool
  | _, [] => false
  | [], _ :: _ => true
  | a :: as, b :: bs =>
    if a.toNat < b.toNat then true
    else if b.toNat < a.toNat then false
    else charListLt as bs

/-- The key order of `BTreeMap<String, _>`. -/
def strLt (a b : String) : Bool :=
  charListLt a.data b.data

/-- `BTreeMap::insert` on a key-sorted association list: keeps the list
strictly sorted by key, replacing the value when the key is present. -/
def btInsert {A : Type} (k : String) (v : A) : List (String × A) → List (String × A)
  | [] => [(k, v)]
  | (k', v') :: rest =>
    if strLt k k' then (k, v) :: (k', v') :: rest
    else if k = k' then (k, v) :: rest
    else (k', v') :: btInsert k v rest

/-- `pos_name_to_string`. -/
def pos_name_to_string (pos : Positioned String) : String :=
  pos.node

/-- `schema_definition`: the first schema-definition node of the document;
its absence is the hard failure `"schema not found"` traced under
`"schema"`. -/
def schema_definition (doc : ServiceDocument) : Valid SchemaDefinition :=
  let p := doc.definitions.findSome? fun d =>
    match d with
    | TypeSystemDefinition.schema sd => some sd.node
    | _ => none
  match p with
  | none => (Valid.fail "schema not found").trace "schema"
  | some sd => Valid.ok sd

/-- `process_schema_directives`: fold over the schema definition's
directives; every directive whose name matches replaces the result so far
(last match wins), starting from the codec's default. -/
def process_schema_directives {T : Type} (from_directive : ConstDirective → Valid T)
    (dflt : T) (sd : SchemaDefinition) (directive_name : String) : Valid T :=
  sd.directives.foldl
    (fun res directive =>
      if directive.node.name.node = directive_name then from_directive directive.node
      else res)
    (Valid.ok dflt)

/-- `server`. -/
def server (c : Codecs) (sd : SchemaDefinition) : Valid Server :=
  process_schema_directives c.serverFromDirective {} sd "server"

/-- `upstream`. -/
def upstream (c : Codecs) (sd : SchemaDefinition) : Valid Upstream :=
  process_schema_directives c.upstreamFromDirective {} sd "upstream"

/-- `to_root_schema`. -/
def to_root_schema (sd : SchemaDefinition) : RootSchema :=
  { query := sd.query.map pos_name_to_string
    mutation := sd.mutation.map pos_name_to_string
    subscription := sd.subscription.map pos_name_to_string }

/-- `to_type_of`: the innermost named type, one list level deep at most;
deeper shapes fall back to the empty string. -/
def to_type_of (type_ : GqlType) : String :=
  match type_.base with
  | BaseType.named name => name
  | BaseType.list inner _ =>
    match inner with
    | BaseType.named name => name
    | _ => ""

/-- `to_modify`: the first directive named `modify` whose decode succeeds
(`find_map` with `Result::ok()`, so a failing decode is skipped silently). -/
def to_modify (c : Codecs) (directives : List (Positioned ConstDirective)) :
    Option ModifyField :=
  directives.findSome? fun directive =>
    if directive.node.name.node = "modify" then (c.modifyFromDirective directive.node).toOption
    else none

/-- `to_inline`. -/
def to_inline (c : Codecs) (directives : List (Positioned ConstDirective)) :
    Option InlineType :=
  directives.findSome? fun directive =>
    if directive.node.name.node = "inline" then (c.inlineFromDirective directive.node).toOption
    else none

/-- `to_unsafe_operation`. -/
def to_unsafe_operation (c : Codecs) (directives : List (Positioned ConstDirective)) :
    Option UnsafeOperation :=
  directives.findSome? fun directive =>
    if directive.node.name.node = "unsafe" then (c.unsafeFromDirective directive.node).toOption
    else none

/-- `to_batch`. -/
def to_batch (c : Codecs) (directives : List (Positioned ConstDirective)) :
    Option GroupBy :=
  directives.findSome? fun directive =>
    if directive.node.name.node = "groupBy" then (c.groupByFromDirective directive.node).toOption
    else none

/-- `to_const_field`. -/
def to_const_field (c : Codecs) (directives : List (Positioned ConstDirective)) :
    Option ConstField :=
  directives.findSome? fun directive =>
    if directive.node.name.node = "const" then (c.constFromDirective directive.node).toOption
    else none

/-- `to_http`: returns on the first directive named `http`, propagating its
decode failure (unlike the other per-field kinds). -/
def to_http (c : Codecs) : List (Positioned ConstDirective) → Valid (Option Http)
  | [] => Valid.ok none
  | directive :: rest =>
    if directive.node.name.node = "http" then (c.httpFromDirective directive.node).map some
    else to_http c rest

/-- `to_common_field`. -/
def to_common_field (c : Codecs) (type_ : GqlType) (base : BaseType) (nullable : Bool)
    (args : List (String × Arg)) (description : Option (Positioned String))
    (directives : List (Positioned ConstDirective)) : Valid Field :=
  let type_of := to_type_of type_
  let list : Bool := match base with | BaseType.list _ _ => true | _ => false
  let list_type_required : Bool :=
    match base with | BaseType.list _ inner_nullable => !inner_nullable | _ => false
  let doc := description.map fun pos => pos.node
  let modify := to_modify c directives
  let inline := to_inline c directives
  (to_http c directives).bind fun http =>
    Valid.ok
      { type_of := type_of
        list := list
        required := !nullable
        list_type_required := list_type_required
        args := args
        doc := doc
        modify := modify
        inline := inline
        http := http
        unsafe_operation := to_unsafe_operation c directives
        group_by := to_batch c directives
        const_field := to_const_field c directives }

/-- `to_arg`: total, returns a plain `Arg` (no `Valid`); a failing `modify`
decode or default-value conversion is swallowed to `none`. -/
def to_arg (c : Codecs) (input_value_definition : InputValueDefinition) : Arg :=
  { type_of := to_type_of input_value_definition.ty.node
    list := match input_value_definition.ty.node.base with
      | BaseType.list _ _ => true
      | _ => false
    required := !input_value_definition.ty.node.nullable
    doc := input_value_definition.description.map fun pos => pos.node
    modify := to_modify c input_value_definition.directives
    default_value := match input_value_definition.default_value with
      | some pos => c.toJsonValue pos.node
      | none => none }

/-- `to_args`: total fold of `to_arg` over the arguments into the map. -/
def to_args (c : Codecs) (field_definition : FieldDefinition) : List (String × Arg) :=
  field_definition.arguments.foldl
    (fun args arg => btInsert (pos_name_to_string arg.node.name) (to_arg c arg.node) args)
    []

/-- `to_field`. -/
def to_field (c : Codecs) (field_definition : FieldDefinition) : Valid Field :=
  to_common_field c field_definition.ty.node field_definition.ty.node.base
    field_definition.ty.node.nullable (to_args c field_definition)
    field_definition.description field_definition.directives

/-- `to_input_object_field`. -/
def to_input_object_field (c : Codecs) (field_definition : InputValueDefinition) :
    Valid Field :=
  to_common_field c field_definition.ty.node field_definition.ty.node.base
    field_definition.ty.node.nullable [] field_definition.description
    field_definition.directives

/-- The loop of `to_fields_inner` with its accumulated map: each field is
transformed with `?` (short-circuit) and inserted under its name. -/
def to_fields_go {T : Type} (name : T → Positioned String) (transform : T → Valid Field) :
    List (Positioned T) → List (String × Field) → Valid (List (String × Field))
  | [], parsed_fields => Valid.ok parsed_fields
  | field :: rest, parsed_fields =>
    (transform field.node).bind fun field_ =>
      to_fields_go name transform rest
        (btInsert (pos_name_to_string (name field.node)) field_ parsed_fields)

/-- `to_fields_inner`. -/
def to_fields_inner {T : Type} (fields : List (Positioned T))
    (name : T → Positioned String) (transform : T → Valid Field) :
    Valid (List (String × Field)) :=
  to_fields_go name transform fields []

/-- `to_fields`. -/
def to_fields (c : Codecs) (fields : List (Positioned FieldDefinition)) :
    Valid (List (String × Field)) :=
  to_fields_inner fields (fun f => f.name) (to_field c)

/-- `to_input_object_fields`. -/
def to_input_object_fields (c : Codecs)
    (input_object_fields : List (Positioned InputValueDefinition)) :
    Valid (List (String × Field)) :=
  to_fields_inner input_object_fields (fun f => f.name) (to_input_object_field c)

/-- `to_object_type`. -/
def to_object_type (c : Codecs) (fields : List (Positioned FieldDefinition))
    (description : Option (Positioned String)) (interface : Bool)
    (implements : List (Positioned String)) : Valid ConfigType :=
  (to_fields c fields).map fun fields_ =>
    { fields := fields_
      doc := description.map fun pos => pos.node
      interface := interface
      implements := implements.map fun pos => pos.node }

/-- `to_enum`. -/
def to_enum (enum_type : EnumType) : ConfigType :=
  { variants := some (enum_type.values.map fun value => value.node.value.node) }

/-- `to_input_object`. -/
def to_input_object (c : Codecs) (input_object_type : InputObjectType) : Valid ConfigType :=
  (to_input_object_fields c input_object_type.fields).map fun fields_ =>
    { fields := fields_ }

/-- `to_scalar_type`. -/
def to_scalar_type : ConfigType :=
  { scalar := true }

/-- `to_union`. -/
def to_union (union_type : UnionType) (doc : Option String) : Union :=
  { types := union_type.members.map fun member => member.node
    doc := doc }

/-- The match of `to_types` on one definition's kind: `some` config type to
insert, or `none` for a union. -/
def to_type_opt (c : Codecs) (td : TypeDefinition) : Valid (Option ConfigType) :=
  match td.kind with
  | TypeKind.object object_type =>
    (to_object_type c object_type.fields td.description false object_type.implements).map some
  | TypeKind.interface interface_type =>
    (to_object_type c interface_type.fields td.description true interface_type.implements).map some
  | TypeKind.enum enum_type => Valid.ok (some (to_enum enum_type))
  | TypeKind.inputObject input_object_type => (to_input_object c input_object_type).map some
  | TypeKind.union _ => Valid.ok none
  | TypeKind.scalar => Valid.ok (some to_scalar_type)

/-- The loop of `to_types` with its accumulated map. -/
def to_types_go (c : Codecs) :
    List (Positioned TypeDefinition) → List (String × ConfigType) →
    Valid (List (String × ConfigType))
  | [], types => Valid.ok types
  | td :: rest, types =>
    (to_type_opt c td.node).bind fun type_opt =>
      match type_opt with
      | some type_ => to_types_go c rest (btInsert (pos_name_to_string td.node.name) type_ types)
      | none => to_types_go c rest types

/-- `to_types`. -/
def to_types (c : Codecs) (type_definitions : List (Positioned TypeDefinition)) :
    Valid (List (String × ConfigType)) :=
  to_types_go c type_definitions []

/-- The loop of `to_union_types` with its accumulated map. -/
def to_union_types_go :
    List (Positioned TypeDefinition) → List (String × Union) → List (String × Union)
  | [], unions => unions
  | td :: rest, unions =>
    match td.node.kind with
    | TypeKind.union union_type =>
      to_union_types_go rest
        (btInsert (pos_name_to_string td.node.name)
          (to_union union_type (td.node.description.map fun pos => pos.node)) unions)
    | _ => to_union_types_go rest unions

/-- `to_union_types`: pure and non-failing. -/
def to_union_types (type_definitions : List (Positioned TypeDefinition)) :
    List (String × Union) :=
  to_union_types_go type_definitions []

/-- `graphql`: filter the type definitions, locate the schema definition
again, then assemble the `GraphQL` IR. -/
def graphql (c : Codecs) (doc : ServiceDocument) : Valid GraphQL :=
  let type_definitions := doc.definitions.filterMap fun def_ =>
    match def_ with
    | TypeSystemDefinition.typeDef type_definition => some type_definition
    | _ => none
  (schema_definition doc).bind fun sd =>
    let root_schema := to_root_schema sd
    (to_types c type_definitions).map fun types =>
      { schema := root_schema
        types := types
        unions := to_union_types type_definitions }

/-- `from_document`: schema lookup, then `server`, `upstream` and `graphql`
in struct-literal order, each behind `?`. -/
def from_document (c : Codecs) (doc : ServiceDocument) : Valid Config :=
  (schema_definition doc).bind fun sd =>
    (server c sd).bind fun server_ =>
      (upstream c sd).bind fun upstream_ =>
        (graphql c doc).map fun graphql_ =>
          { server := server_
            upstream := upstream_
            graphql := graphql_ }

/-! Helper lemmas about `Valid` and the sorted-association-list `BTreeMap`. -/

/-- The key comparison is irreflexive. -/
theorem charListLt_irrefl : ∀ l : List Char, charListLt l l = false
  | [] => rfl
  | a :: as => by simp [charListLt, charListLt_irrefl as]

/-- Nothing compares below the empty key. -/
theorem charListLt_nil : ∀ a : List Char, charListLt a [] = false
  | [] => rfl
  | _ :: _ => rfl

/-- The key comparison is asymmetric. -/
theorem charListLt_asymm : ∀ a b : List Char,
    charListLt a b = true → charListLt b a = true → False
  | [], [], h1, _ => Bool.noConfusion h1
  | [], _ :: _, _, h2 => Bool.noConfusion h2
  | _ :: _, [], h1, _ => Bool.noConfusion h1
  | a :: as, b :: bs, h1, h2 => by
    rcases Nat.lt_trichotomy a.toNat b.toNat with hab | hab | hab
    · simp [charListLt, hab, Nat.lt_asymm hab] at h2
    · simp [charListLt, hab, Nat.lt_irrefl] at h1 h2
      exact charListLt_asymm as bs h1 h2
    · simp [charListLt, hab, Nat.lt_asymm hab] at h1

/-- The key comparison is transitive. -/
theorem charListLt_trans : ∀ a b c : List Char,
    charListLt a b = true → charListLt b c = true → charListLt a c = true
  | _, [], _, h1, _ => by rw [charListLt_nil] at h1; exact Bool.noConfusion h1
  | _, _ :: _, [], _, h2 => Bool.noConfusion h2
  | [], _ :: _, _ :: _, _, _ => rfl
  | a :: as, b :: bs, c :: cs, h1, h2 => by
    rcases Nat.lt_trichotomy a.toNat b.toNat with hab | hab | hab
    · rcases Nat.lt_trichotomy b.toNat c.toNat with hbc | hbc | hbc
      · simp [charListLt, Nat.lt_trans hab hbc]
      · simp [charListLt, hbc ▸ hab]
      · simp [charListLt, hbc, Nat.lt_asymm hbc] at h2
    · rcases Nat.lt_trichotomy b.toNat c.toNat with hbc | hbc | hbc
      · simp [charListLt, hab ▸ hbc]
      · simp [charListLt, hab, hbc, Nat.lt_irrefl] at h1 h2 ⊢
        exact charListLt_trans as bs cs h1 h2
      · simp [charListLt, hbc, Nat.lt_asymm hbc] at h2
    · simp [charListLt, hab, Nat.lt_asymm hab] at h1

/-- Keys that compare false both ways are equal. -/
theorem charListLt_connex : ∀ a b : List Char,
    charListLt a b = false → charListLt b a = false → a = b
  | [], [], _, _ => rfl
  | [], _ :: _, h1, _ => Bool.noConfusion h1
  | _ :: _, [], _, h2 => Bool.noConfusion h2
  | a :: as, b :: bs, h1, h2 => by
    rcases Nat.lt_trichotomy a.toNat b.toNat with hab | hab | hab
    · simp [charListLt, hab] at h1
    · simp [charListLt, hab, Nat.lt_irrefl] at h1 h2
      rw [charListLt_connex as bs h1 h2, Char.ext (UInt32.toNat.inj hab)]
    · simp [charListLt, hab, Nat.lt_asymm hab] at h2

/-- `strLt` is irreflexive. -/
theorem strLt_irrefl (a : String) : strLt a a = false :=
  charListLt_irrefl a.data

/-- `strLt` is asymmetric. -/
theorem strLt_asymm (a b : String) (h1 : strLt a b = true) (h2 : strLt b a = true) :
    False :=
  charListLt_asymm a.data b.data h1 h2

/-- `strLt` is transitive. -/
theorem strLt_trans (a b c : String) (h1 : strLt a b = true) (h2 : strLt b c = true) :
    strLt a c = true :=
  charListLt_trans a.data b.data c.data h1 h2

/-- Of two distinct keys, one compares below the other. -/
theorem strLt_of_not_of_ne (a b : String) (h1 : ¬ strLt a b = true) (h2 : ¬ a = b) :
    strLt b a = true := by
  cases hba : strLt b a with
  | true => rfl
  | false =>
    exact absurd (String.ext (charListLt_connex a.data b.data
      (Bool.not_eq_true _ ▸ h1) hba)) h2

/-- A bound of `Valid.bind` succeeds exactly when both stages succeed. -/
theorem Valid.bind_eq_ok {A B : Type} {v : Valid A} {f : A → Valid B} {b : B} :
    v.bind f = Valid.ok b ↔ ∃ a, v = Valid.ok a ∧ f a = Valid.ok b := by
  cases v with
  | ok a => simp [Valid.bind]
  | error e => simp [Valid.bind]

/-- A bound of `Valid.bind` fails exactly when a stage fails. -/
theorem Valid.bind_eq_error {A B : Type} {v : Valid A} {f : A → Valid B} {e : List Cause} :
    v.bind f = Valid.error e ↔
      v = Valid.error e ∨ ∃ a, v = Valid.ok a ∧ f a = Valid.error e := by
  cases v with
  | ok a => simp [Valid.bind]
  | error e' => simp [Valid.bind]

/-- `Valid.map` never turns success into failure. -/
theorem Valid.map_eq_error {A B : Type} {f : A → B} {v : Valid A} {e : List Cause} :
    Valid.map f v = Valid.error e ↔ v = Valid.error e := by
  cases v with
  | ok a => simp [Valid.map]
  | error e' => simp [Valid.map]

/-- Every element of `btInsert k v l` is the inserted pair or came from `l`. -/
theorem btInsert_mem {A : Type} (k : String) (v : A) (l : List (String × A)) :
    ∀ x ∈ btInsert k v l, x = (k, v) ∨ x ∈ l := by
  induction l with
  | nil => intro x hx; simp [btInsert] at hx; exact Or.inl hx
  | cons hd tl ih =>
    intro x hx
    obtain ⟨k', v'⟩ := hd
    by_cases h1 : strLt k k' = true
    · simp only [btInsert, if_pos h1, List.mem_cons] at hx
      rcases hx with h | h
      · exact Or.inl h
      · exact Or.inr (by simpa using h)
    · by_cases h2 : k = k'
      · simp only [btInsert, if_neg h1, if_pos h2, List.mem_cons] at hx
        rcases hx with h | h
        · exact Or.inl h
        · exact Or.inr (List.mem_cons_of_mem _ h)
      · simp only [btInsert, if_neg h1, if_neg h2, List.mem_cons] at hx
        rcases hx with h | h
        · exact Or.inr (by simp [h])
        · rcases ih x h with h' | h'
          · exact Or.inl h'
          · exact Or.inr (List.mem_cons_of_mem _ h')

/-- The inserted key is a key of the result. -/
theorem btInsert_mem_keys_self {A : Type} (k : String) (v : A) (l : List (String × A)) :
    k ∈ (btInsert k v l).map Prod.fst := by
  induction l with
  | nil => simp [btInsert]
  | cons hd tl ih =>
    obtain ⟨k', v'⟩ := hd
    by_cases h1 : strLt k k' = true
    · simp [btInsert, h1]
    · by_cases h2 : k = k'
      · simp [btInsert, h1, h2, strLt_irrefl]
      · simp only [btInsert, if_neg h1, if_neg h2, List.map_cons, List.mem_cons]
        exact Or.inr ih

/-- Insertion keeps the keys already present. -/
theorem btInsert_mem_keys_of_mem {A : Type} (k : String) (v : A) (l : List (String × A))
    {k' : String} (h : k' ∈ l.map Prod.fst) :
    k' ∈ (btInsert k v l).map Prod.fst := by
  induction l with
  | nil => simp at h
  | cons hd tl ih =>
    obtain ⟨k0, v0⟩ := hd
    by_cases h1 : strLt k k0 = true
    · simp only [btInsert, if_pos h1, List.map_cons, List.mem_cons]
      simp only [List.map_cons, List.mem_cons] at h
      rcases h with h | h
      · exact Or.inr (Or.inl h)
      · exact Or.inr (Or.inr h)
    · by_cases h2 : k = k0
      · simp only [btInsert, if_neg h1, if_pos h2, List.map_cons, List.mem_cons]
        simp only [List.map_cons, List.mem_cons] at h
        rcases h with h | h
        · exact Or.inl (h.trans h2.symm)
        · exact Or.inr h
      · simp only [btInsert, if_neg h1, if_neg h2, List.map_cons, List.mem_cons]
        simp only [List.map_cons, List.mem_cons] at h
        rcases h with h | h
        · exact Or.inl h
        · exact Or.inr (ih h)

/-- Every key of the result was inserted or was already a key. -/
theorem btInsert_keys_subset {A : Type} (k : String) (v : A) (l : List (String × A)) :
    ∀ k' ∈ (btInsert k v l).map Prod.fst, k' = k ∨ k' ∈ l.map Prod.fst := by
  intro k' hk'
  rcases List.mem_map.1 hk' with ⟨x, hx, hfst⟩
  rcases btInsert_mem k v l x hx with h | h
  · left; rw [← hfst, h]
  · right; exact hfst ▸ List.mem_map_of_mem Prod.fst h

/-- Inserting a fresh key grows the list by exactly one entry. -/
theorem btInsert_length_fresh {A : Type} (k : String) (v : A) (l : List (String × A))
    (h : k ∉ l.map Prod.fst) : (btInsert k v l).length = l.length + 1 := by
  induction l with
  | nil => simp [btInsert]
  | cons hd tl ih =>
    obtain ⟨k0, v0⟩ := hd
    simp only [List.map_cons, List.mem_cons] at h
    push_neg at h
    by_cases h1 : strLt k k0 = true
    · simp [btInsert, h1]
    · simp only [btInsert, if_neg h1, if_neg h.1, List.length_cons]
      rw [ih h.2]

/-- Inserting a fresh key is, up to permutation, consing the pair. -/
theorem btInsert_perm_fresh {A : Type} (k : String) (v : A) (l : List (String × A))
    (h : k ∉ l.map Prod.fst) : (btInsert k v l).Perm ((k, v) :: l) := by
  induction l with
  | nil => simp [btInsert]
  | cons hd tl ih =>
    obtain ⟨k0, v0⟩ := hd
    simp only [List.map_cons, List.mem_cons] at h
    push_neg at h
    by_cases h1 : strLt k k0 = true
    · simp [btInsert, h1]
    · simp only [btInsert, if_neg h1, if_neg h.1]
      exact ((ih h.2).cons (k0, v0)).trans (List.Perm.swap (k, v) (k0, v0) tl)

/-- Insertion preserves strict key-sortedness. -/
theorem btInsert_sorted {A : Type} (k : String) (v : A) (l : List (String × A))
    (h : l.Pairwise (fun a b => strLt a.1 b.1 = true)) :
    (btInsert k v l).Pairwise (fun a b : String × A => strLt a.1 b.1 = true) := by
  induction l with
  | nil => simp [btInsert]
  | cons hd tl ih =>
    obtain ⟨k0, v0⟩ := hd
    rcases List.pairwise_cons.1 h with ⟨hhd, htl⟩
    by_cases h1 : strLt k k0 = true
    · simp only [btInsert, if_pos h1]
      refine List.pairwise_cons.2 ⟨?_, h⟩
      intro b hb
      rcases List.mem_cons.1 hb with hb | hb
      · rw [hb]; exact h1
      · exact strLt_trans _ _ _ h1 (hhd b hb)
    · by_cases h2 : k = k0
      · simp only [btInsert, if_neg h1, if_pos h2]
        refine List.pairwise_cons.2 ⟨?_, htl⟩
        intro b hb
        exact h2 ▸ hhd b hb
      · simp only [btInsert, if_neg h1, if_neg h2]
        refine List.pairwise_cons.2 ⟨?_, ih htl⟩
        intro b hb
        rcases btInsert_mem k v tl b hb with hb' | hb'
        · rw [hb']
          exact strLt_of_not_of_ne k k0 h1 h2
        · exact hhd b hb'

/-- If no definition of the document is a schema definition, the schema
lookup yields exactly the traced `"schema not found"` failure. -/
theorem schema_definition_not_found (doc : ServiceDocument)
    (h : ∀ d ∈ doc.definitions, ∀ sd, d ≠ TypeSystemDefinition.schema sd) :
    schema_definition doc =
      Valid.error [{ message := "schema not found", trace := ["schema"] }] := by
  have hnone : (doc.definitions.findSome? fun d =>
      match d with
      | TypeSystemDefinition.schema sd => some sd.node
      | _ => none) = none := by
    obtain ⟨defs⟩ := doc
    induction defs with
    | nil => rfl
    | cons hd tl ih =>
      have hhd : ∀ sd, hd ≠ TypeSystemDefinition.schema sd := fun sd =>
        h hd (List.mem_cons_self hd tl) sd
      have htl : ∀ d ∈ tl, ∀ sd, d ≠ TypeSystemDefinition.schema sd := fun d hd' sd =>
        h d (List.mem_cons_of_mem hd hd') sd
      cases hd with
      | schema sd => exact absurd rfl (hhd sd)
      | typeDef t => simpa [List.findSome?] using ih htl
      | directiveDef => simpa [List.findSome?] using ih htl
  simp only [schema_definition, hnone]
  rfl

/-! Fixtures: a concrete codec assignment for witnesses (every decode
succeeds, carrying the number of the directive's arguments as payload),
one in which every decode fails, and small document builders. -/

/-- A codec assignment where every decode succeeds. -/
def okCodecs : Codecs where
  serverFromDirective := fun d => Valid.ok ⟨d.arguments.length⟩
  upstreamFromDirective := fun d => Valid.ok ⟨d.arguments.length⟩
  httpFromDirective := fun d => Valid.ok ⟨d.arguments.length⟩
  modifyFromDirective := fun d => Valid.ok ⟨d.arguments.length⟩
  inlineFromDirective := fun d => Valid.ok ⟨d.arguments.length⟩
  unsafeFromDirective := fun d => Valid.ok ⟨d.arguments.length⟩
  groupByFromDirective := fun d => Valid.ok ⟨d.arguments.length⟩
  constFromDirective := fun d => Valid.ok ⟨d.arguments.length⟩
  toJsonValue := fun _ => some ⟨0⟩

/-- A codec assignment where every decode fails (each directive is
"syntactically invalid" for its codec) and no default literal converts. -/
def failCodecs : Codecs where
  serverFromDirective := fun _ => Valid.fail "bad server"
  upstreamFromDirective := fun _ => Valid.fail "bad upstream"
  httpFromDirective := fun _ => Valid.fail "bad http"
  modifyFromDirective := fun _ => Valid.fail "bad modify"
  inlineFromDirective := fun _ => Valid.fail "bad inline"
  unsafeFromDirective := fun _ => Valid.fail "bad unsafe-directive"
  groupByFromDirective := fun _ => Valid.fail "bad groupBy"
  constFromDirective := fun _ => Valid.fail "bad const"
  toJsonValue := fun _ => none

/-- A directive with a given name and argument count. -/
def mkDirective (n : String) (args : Nat) : Positioned ConstDirective :=
  ⟨⟨⟨n⟩, List.replicate args (⟨"a"⟩, ⟨ConstValue.null⟩)⟩⟩

/-- A field definition with a given name, type and directives. -/
def mkField (n : String) (ty : GqlType) (ds : List (Positioned ConstDirective)) :
    Positioned FieldDefinition :=
  ⟨⟨⟨n⟩, ⟨ty⟩, none, [], ds⟩⟩

/-- A directive-free schema definition declaring `query: Query`. -/
def plainSchema : TypeSystemDefinition :=
  TypeSystemDefinition.schema ⟨⟨[], some ⟨"Query"⟩, none, none⟩⟩

/-! Claim theorems. -/

/-- C4: for every document containing zero schema-definition nodes, the
lowering pass returns no `Config` value and exactly one error, with message
"schema not found" and trace path `["schema"]`. -/
theorem from_document_missing_schema (c : Codecs) (doc : ServiceDocument)
    (h : ∀ d ∈ doc.definitions, ∀ sd, d ≠ TypeSystemDefinition.schema sd) :
    from_document c doc =
      Valid.error [{ message := "schema not found", trace := ["schema"] }] := by
  rw [from_document, schema_definition_not_found doc h]
  rfl

/-- C4 witness: the empty document fails with exactly the traced
"schema not found" error. -/
theorem from_document_missing_schema_witness :
    from_document okCodecs ⟨[]⟩ =
      Valid.error [{ message := "schema not found", trace := ["schema"] }] :=
  from_document_missing_schema okCodecs ⟨[]⟩ (by intro d hd sd; cases hd)

/-- C7: lowering a field declared as a non-null list of non-null `String`
yields `type_of = "String"`, `list = true`, `required = true` and
`list_type_required = true`; a nullable list of nullable `String` yields
`list = true`, `required = false` and `list_type_required = false`. -/
theorem to_field_nullability_axes (c : Codecs) :
    (∃ f, to_field c
        { name := ⟨"f"⟩, ty := ⟨⟨BaseType.list (BaseType.named "String") false, false⟩⟩,
          description := none, arguments := [], directives := [] } = Valid.ok f ∧
      f.type_of = "String" ∧ f.list = true ∧ f.required = true ∧
      f.list_type_required = true) ∧
    (∃ g, to_field c
        { name := ⟨"g"⟩, ty := ⟨⟨BaseType.list (BaseType.named "String") true, true⟩⟩,
          description := none, arguments := [], directives := [] } = Valid.ok g ∧
      g.type_of = "String" ∧ g.list = true ∧ g.required = false ∧
      g.list_type_required = false) :=
  ⟨⟨_, rfl, rfl, rfl, rfl, rfl⟩, ⟨_, rfl, rfl, rfl, rfl, rfl⟩⟩

/-- C7 witness: the nullability law at the concrete codec assignment. -/
theorem to_field_nullability_axes_witness :
    (∃ f, to_field okCodecs
        { name := ⟨"f"⟩, ty := ⟨⟨BaseType.list (BaseType.named "String") false, false⟩⟩,
          description := none, arguments := [], directives := [] } = Valid.ok f ∧
      f.type_of = "String" ∧ f.list = true ∧ f.required = true ∧
      f.list_type_required = true) ∧
    (∃ g, to_field okCodecs
        { name := ⟨"g"⟩, ty := ⟨⟨BaseType.list (BaseType.named "String") true, true⟩⟩,
          description := none, arguments := [], directives := [] } = Valid.ok g ∧
      g.type_of = "String" ∧ g.list = true ∧ g.required = false ∧
      g.list_type_required = false) :=
  to_field_nullability_axes okCodecs

/-- C9: the lowering pass is deterministic — on equal input documents,
`from_document` produces the same result, be it a `Config` or an error
set. -/
theorem from_document_deterministic (c : Codecs) (d1 d2 : ServiceDocument)
    (h : d1 = d2) : from_document c d1 = from_document c d2 := by
  rw [h]

/-- C9 witness: determinism applied at a concrete document. -/
theorem from_document_deterministic_witness :
    from_document okCodecs ⟨[plainSchema]⟩ = from_document okCodecs ⟨[plainSchema]⟩ :=
  from_document_deterministic okCodecs ⟨[plainSchema]⟩ ⟨[plainSchema]⟩ rfl

/-- If every directive of the matching name decodes to `none`, the
`find_map` scan of the per-field kinds yields `none`. -/
theorem findSome?_matching_none {B : Type} (n : String) (dec : ConstDirective → Option B)
    (ds : List (Positioned ConstDirective))
    (h : ∀ d ∈ ds, d.node.name.node = n → dec d.node = none) :
    (ds.findSome? fun directive =>
      if directive.node.name.node = n then dec directive.node else none) = none := by
  rw [List.findSome?_eq_none_iff]
  intro d hd
  by_cases hn : d.node.name.node = n
  · simp [hn, h d hd hn]
  · simp [hn]

/-- A document with two fields whose `@http` directives are both malformed
for `failCodecs`. -/
def docTwoBadHttp : ServiceDocument :=
  ⟨[plainSchema, TypeSystemDefinition.typeDef
    ⟨⟨⟨"T"⟩, none, TypeKind.object ⟨[],
      [mkField "f1" ⟨BaseType.named "Int", true⟩ [mkDirective "http" 1],
       mkField "f2" ⟨BaseType.named "Int", true⟩ [mkDirective "http" 2]]⟩⟩⟩]⟩

/-- C1 counterexample: a document in which two different fields each carry a
malformed `@http` directive produces an error list with a single entry (the
first field's), not two — lowering short-circuits instead of accumulating. -/
theorem from_document_two_bad_http_single_entry :
    from_document failCodecs docTwoBadHttp =
      Valid.error [{ message := "bad http", trace := [] }] ∧
    ([{ message := "bad http", trace := [] }] : List Cause).length = 1 :=
  ⟨rfl, rfl⟩

/-- C1 amended: field lowering short-circuits at the first failing field;
with two independently-malformed `@http` directives on two different
fields, the lowering pass reports exactly the first field's error list and
the second field's errors are never reported. -/
theorem from_document_first_field_failure_wins (c : Codecs)
    (fd1 fd2 : Positioned FieldDefinition) (e1 e2 : List Cause)
    (h1 : to_field c fd1.node = Valid.error e1)
    (h2 : to_field c fd2.node = Valid.error e2) :
    from_document c ⟨[plainSchema, TypeSystemDefinition.typeDef
      ⟨⟨⟨"T"⟩, none, TypeKind.object ⟨[], [fd1, fd2]⟩⟩⟩]⟩ = Valid.error e1 := by
  have hfields : to_fields c [fd1, fd2] = Valid.error e1 := by
    simp [to_fields, to_fields_inner, to_fields_go, h1, Valid.bind]
  have hobj : to_object_type c [fd1, fd2] none false [] = Valid.error e1 := by
    simp [to_object_type, hfields, Valid.map]
  have htypes : to_types c [⟨⟨⟨"T"⟩, none, TypeKind.object ⟨[], [fd1, fd2]⟩⟩⟩] =
      Valid.error e1 := by
    simp [to_types, to_types_go, to_type_opt, hobj, Valid.map, Valid.bind]
  have hg : graphql c ⟨[plainSchema, TypeSystemDefinition.typeDef
      ⟨⟨⟨"T"⟩, none, TypeKind.object ⟨[], [fd1, fd2]⟩⟩⟩]⟩ = Valid.error e1 := by
    simp [graphql, plainSchema, schema_definition, List.findSome?, List.filterMap,
      htypes, Valid.map, Valid.bind]
  simp only [from_document]
  rw [show schema_definition ⟨[plainSchema, TypeSystemDefinition.typeDef
      ⟨⟨⟨"T"⟩, none, TypeKind.object ⟨[], [fd1, fd2]⟩⟩⟩]⟩ =
    Valid.ok ⟨[], some ⟨"Query"⟩, none, none⟩ from rfl]
  simp only [Valid.bind]
  rw [show server c ⟨[], some ⟨"Query"⟩, none, none⟩ = Valid.ok {} from rfl]
  simp only [Valid.bind]
  rw [show upstream c ⟨[], some ⟨"Query"⟩, none, none⟩ = Valid.ok {} from rfl]
  simp only [Valid.bind]
  rw [hg]
  simp [Valid.map]

/-- C1 witness: the amended short-circuit law applied to the concrete
two-bad-http document. -/
theorem from_document_first_field_failure_wins_witness :
    from_document failCodecs ⟨[plainSchema, TypeSystemDefinition.typeDef
      ⟨⟨⟨"T"⟩, none, TypeKind.object ⟨[],
        [mkField "f1" ⟨BaseType.named "Int", true⟩ [mkDirective "http" 1],
         mkField "f2" ⟨BaseType.named "Int", true⟩ [mkDirective "http" 2]]⟩⟩⟩]⟩ =
      Valid.error [{ message := "bad http", trace := [] }] :=
  from_document_first_field_failure_wins failCodecs
    (mkField "f1" ⟨BaseType.named "Int", true⟩ [mkDirective "http" 1])
    (mkField "f2" ⟨BaseType.named "Int", true⟩ [mkDirective "http" 2])
    [{ message := "bad http", trace := [] }] [{ message := "bad http", trace := [] }]
    rfl rfl

/-- The `Field` a nullable plain-`Int` field with no surviving directive
lowers to: every directive-derived option absent. -/
def intFieldBare : Field :=
  { type_of := "Int", list := false, required := false, list_type_required := false,
    args := [], doc := none, modify := none, inline := none, http := none,
    unsafe_operation := none, group_by := none, const_field := none }

/-- C2 counterexample: a field carrying a present but syntactically invalid
`@modify` directive lowers successfully — no failure attributable to the
directive is produced; the decode error is silently dropped and `modify` is
absent. -/
theorem to_field_invalid_modify_dropped :
    to_field failCodecs (mkField "f" ⟨BaseType.named "Int", true⟩
        [mkDirective "modify" 1]).node = Valid.ok intFieldBare :=
  rfl

/-- C2 amended: only a failing `@http` decode makes field lowering fail
(with exactly the http decoder's errors); a present but invalid directive
of the kinds modify, inline, unsafe, groupBy or const is silently dropped,
the field lowering succeeding with that option absent. -/
theorem to_field_failure_only_from_http (c : Codecs) (fd : FieldDefinition)
    (hm : ∀ d ∈ fd.directives, d.node.name.node = "modify" →
      (c.modifyFromDirective d.node).toOption = none)
    (hi : ∀ d ∈ fd.directives, d.node.name.node = "inline" →
      (c.inlineFromDirective d.node).toOption = none)
    (hu : ∀ d ∈ fd.directives, d.node.name.node = "unsafe" →
      (c.unsafeFromDirective d.node).toOption = none)
    (hb : ∀ d ∈ fd.directives, d.node.name.node = "groupBy" →
      (c.groupByFromDirective d.node).toOption = none)
    (hk : ∀ d ∈ fd.directives, d.node.name.node = "const" →
      (c.constFromDirective d.node).toOption = none) :
    (∀ f, to_field c fd = Valid.ok f →
      f.modify = none ∧ f.inline = none ∧ f.unsafe_operation = none ∧
      f.group_by = none ∧ f.const_field = none) ∧
    (∀ e, to_field c fd = Valid.error e → to_http c fd.directives = Valid.error e) := by
  have hm' : to_modify c fd.directives = none :=
    findSome?_matching_none "modify" (fun x => (c.modifyFromDirective x).toOption)
      fd.directives hm
  have hi' : to_inline c fd.directives = none :=
    findSome?_matching_none "inline" (fun x => (c.inlineFromDirective x).toOption)
      fd.directives hi
  have hu' : to_unsafe_operation c fd.directives = none :=
    findSome?_matching_none "unsafe" (fun x => (c.unsafeFromDirective x).toOption)
      fd.directives hu
  have hb' : to_batch c fd.directives = none :=
    findSome?_matching_none "groupBy" (fun x => (c.groupByFromDirective x).toOption)
      fd.directives hb
  have hk' : to_const_field c fd.directives = none :=
    findSome?_matching_none "const" (fun x => (c.constFromDirective x).toOption)
      fd.directives hk
  constructor
  · intro f hf
    simp only [to_field, to_common_field] at hf
    rcases Valid.bind_eq_ok.1 hf with ⟨h0, _, hok⟩
    have hfeq : f = _ := (Valid.ok.inj hok).symm
    rw [hfeq]
    exact ⟨hm', hi', hu', hb', hk'⟩
  · intro e he
    simp only [to_field, to_common_field] at he
    rcases Valid.bind_eq_error.1 he with h | ⟨a, _, hfa⟩
    · exact h
    · cases hfa

/-- C2 witness: the amended law applied to a field with one invalid
`@modify` directive: lowering succeeds and every droppable option is
absent. -/
theorem to_field_failure_only_from_http_witness :
    intFieldBare.modify = none ∧ intFieldBare.inline = none ∧
    intFieldBare.unsafe_operation = none ∧ intFieldBare.group_by = none ∧
    intFieldBare.const_field = none :=
  (to_field_failure_only_from_http failCodecs
    (mkField "f" ⟨BaseType.named "Int", true⟩ [mkDirective "modify" 1]).node
    (by decide) (by decide) (by decide) (by decide) (by decide)).1 intFieldBare rfl

/-- C3 counterexample: a field with two decodable `@http` directives stores
the value decoded from the FIRST one in source order, not the last — the
last matching directive decodes to a different value. -/
theorem to_http_first_directive_wins_cex :
    to_http okCodecs [mkDirective "http" 1, mkDirective "http" 2] =
      Valid.ok (some ⟨1⟩) ∧
    okCodecs.httpFromDirective (mkDirective "http" 2).node = Valid.ok ⟨2⟩ ∧
    (⟨1⟩ : Http) ≠ ⟨2⟩ :=
  ⟨rfl, rfl, by decide⟩

/-- The `find_map`+`.ok()` scan of the optional per-field kinds returns the
first matching directive whose decode succeeds, skipping earlier matching
directives whose decode fails. -/
theorem findSome?_first_success {B : Type} (n : String) (dec : ConstDirective → Option B)
    (pre post : List (Positioned ConstDirective)) (d : Positioned ConstDirective) (b : B)
    (hd : d.node.name.node = n) (hdec : dec d.node = some b)
    (hpre : ∀ d' ∈ pre, d'.node.name.node = n → dec d'.node = none) :
    ((pre ++ d :: post).findSome? fun directive =>
      if directive.node.name.node = n then dec directive.node else none) = some b := by
  induction pre with
  | nil => simp [List.findSome?, hd, hdec]
  | cons p ps ih =>
    by_cases hp : p.node.name.node = n
    · have hnone : dec p.node = none := hpre p (List.mem_cons_self p ps) hp
      simp only [List.cons_append, List.findSome?, hp, if_pos hp, hnone]
      exact ih fun d' hd' hn => hpre d' (List.mem_cons_of_mem p hd') hn
    · simp only [List.cons_append, List.findSome?, if_neg hp]
      exact ih fun d' hd' hn => hpre d' (List.mem_cons_of_mem p hd') hn

/-- C3 amended: last-seen-wins holds for the schema-level `server` and
`upstream` directives (the fold takes the last matching directive); for the
per-field kinds the FIRST matching directive wins — `to_http` returns on
the first directive named http, and each of the five optional kinds
(modify, inline, unsafe, groupBy, const) stores the first matching
directive whose decode succeeds, earlier matching-but-failing directives
being skipped. -/
theorem directive_occurrence_order :
    (∀ (T : Type) (decode : ConstDirective → Valid T) (dflt : T)
       (q m s : Option (Positioned String)) (directive_name : String)
       (pre post : List (Positioned ConstDirective)) (d : Positioned ConstDirective),
       d.node.name.node = directive_name →
       (∀ d' ∈ post, d'.node.name.node ≠ directive_name) →
       process_schema_directives decode dflt ⟨pre ++ d :: post, q, m, s⟩ directive_name =
         decode d.node) ∧
    (∀ (c : Codecs) (pre post : List (Positioned ConstDirective))
       (d : Positioned ConstDirective),
       d.node.name.node = "http" →
       (∀ d' ∈ pre, d'.node.name.node ≠ "http") →
       to_http c (pre ++ d :: post) = (c.httpFromDirective d.node).map some) ∧
    (∀ (c : Codecs) (pre post : List (Positioned ConstDirective))
       (d : Positioned ConstDirective) (b : ModifyField),
       d.node.name.node = "modify" → c.modifyFromDirective d.node = Valid.ok b →
       (∀ d' ∈ pre, d'.node.name.node = "modify" →
         (c.modifyFromDirective d'.node).toOption = none) →
       to_modify c (pre ++ d :: post) = some b) ∧
    (∀ (c : Codecs) (pre post : List (Positioned ConstDirective))
       (d : Positioned ConstDirective) (b : InlineType),
       d.node.name.node = "inline" → c.inlineFromDirective d.node = Valid.ok b →
       (∀ d' ∈ pre, d'.node.name.node = "inline" →
         (c.inlineFromDirective d'.node).toOption = none) →
       to_inline c (pre ++ d :: post) = some b) ∧
    (∀ (c : Codecs) (pre post : List (Positioned ConstDirective))
       (d : Positioned ConstDirective) (b : UnsafeOperation),
       d.node.name.node = "unsafe" → c.unsafeFromDirective d.node = Valid.ok b →
       (∀ d' ∈ pre, d'.node.name.node = "unsafe" →
         (c.unsafeFromDirective d'.node).toOption = none) →
       to_unsafe_operation c (pre ++ d :: post) = some b) ∧
    (∀ (c : Codecs) (pre post : List (Positioned ConstDirective))
       (d : Positioned ConstDirective) (b : GroupBy),
       d.node.name.node = "groupBy" → c.groupByFromDirective d.node = Valid.ok b →
       (∀ d' ∈ pre, d'.node.name.node = "groupBy" →
         (c.groupByFromDirective d'.node).toOption = none) →
       to_batch c (pre ++ d :: post) = some b) ∧
    (∀ (c : Codecs) (pre post : List (Positioned ConstDirective))
       (d : Positioned ConstDirective) (b : ConstField),
       d.node.name.node = "const" → c.constFromDirective d.node = Valid.ok b →
       (∀ d' ∈ pre, d'.node.name.node = "const" →
         (c.constFromDirective d'.node).toOption = none) →
       to_const_field c (pre ++ d :: post) = some b) := by
  refine ⟨?_, ?_, ?_, ?_, ?_, ?_, ?_⟩
  · intro T decode dflt q m s directive_name pre post d hd hpost
    simp only [process_schema_directives, List.foldl_append, List.foldl_cons, if_pos hd]
    induction post with
    | nil => rfl
    | cons p ps ih =>
      have hp : p.node.name.node ≠ directive_name := hpost p (List.mem_cons_self p ps)
      simp only [List.foldl_cons, if_neg hp]
      exact ih fun d' hd' => hpost d' (List.mem_cons_of_mem p hd')
  · intro c pre post d hd hpre
    induction pre with
    | nil => simp only [List.nil_append, to_http, if_pos hd]
    | cons p ps ih =>
      have hp : p.node.name.node ≠ "http" := hpre p (List.mem_cons_self p ps)
      simp only [List.cons_append, to_http, if_neg hp]
      exact ih fun d' hd' => hpre d' (List.mem_cons_of_mem p hd')
  · intro c pre post d b hd hdec hpre
    exact findSome?_first_success "modify" (fun x => (c.modifyFromDirective x).toOption)
      pre post d b hd (by simp [hdec, Valid.toOption]) hpre
  · intro c pre post d b hd hdec hpre
    exact findSome?_first_success "inline" (fun x => (c.inlineFromDirective x).toOption)
      pre post d b hd (by simp [hdec, Valid.toOption]) hpre
  · intro c pre post d b hd hdec hpre
    exact findSome?_first_success "unsafe" (fun x => (c.unsafeFromDirective x).toOption)
      pre post d b hd (by simp [hdec, Valid.toOption]) hpre
  · intro c pre post d b hd hdec hpre
    exact findSome?_first_success "groupBy" (fun x => (c.groupByFromDirective x).toOption)
      pre post d b hd (by simp [hdec, Valid.toOption]) hpre
  · intro c pre post d b hd hdec hpre
    exact findSome?_first_success "const" (fun x => (c.constFromDirective x).toOption)
      pre post d b hd (by simp [hdec, Valid.toOption]) hpre

/-- A codec assignment whose decoders reject a directive with an empty
argument list and otherwise succeed with the argument count as payload. -/
def argCodecs : Codecs where
  serverFromDirective := fun d =>
    if d.arguments.length = 0 then Valid.fail "bad server" else Valid.ok ⟨d.arguments.length⟩
  upstreamFromDirective := fun d =>
    if d.arguments.length = 0 then Valid.fail "bad upstream" else Valid.ok ⟨d.arguments.length⟩
  httpFromDirective := fun d =>
    if d.arguments.length = 0 then Valid.fail "bad http" else Valid.ok ⟨d.arguments.length⟩
  modifyFromDirective := fun d =>
    if d.arguments.length = 0 then Valid.fail "bad modify" else Valid.ok ⟨d.arguments.length⟩
  inlineFromDirective := fun d =>
    if d.arguments.length = 0 then Valid.fail "bad inline" else Valid.ok ⟨d.arguments.length⟩
  unsafeFromDirective := fun d =>
    if d.arguments.length = 0 then Valid.fail "bad unsafe-directive"
    else Valid.ok ⟨d.arguments.length⟩
  groupByFromDirective := fun d =>
    if d.arguments.length = 0 then Valid.fail "bad groupBy" else Valid.ok ⟨d.arguments.length⟩
  constFromDirective := fun d =>
    if d.arguments.length = 0 then Valid.fail "bad const" else Valid.ok ⟨d.arguments.length⟩
  toJsonValue := fun _ => some ⟨0⟩

/-- C3 witness: with two `@server` directives the last decode is stored;
with two `@http` directives the first decode is stored; and for each of
the five optional kinds, a first matching directive whose decode fails is
skipped in favour of the next matching directive that decodes. -/
theorem directive_occurrence_order_witness :
    process_schema_directives okCodecs.serverFromDirective {}
      ⟨[mkDirective "server" 1, mkDirective "server" 2], none, none, none⟩ "server" =
      Valid.ok ⟨2⟩ ∧
    to_http okCodecs [mkDirective "http" 1, mkDirective "http" 2] =
      Valid.ok (some ⟨1⟩) ∧
    to_modify argCodecs [mkDirective "modify" 0, mkDirective "modify" 2] = some ⟨2⟩ ∧
    to_inline argCodecs [mkDirective "inline" 0, mkDirective "inline" 2] = some ⟨2⟩ ∧
    to_unsafe_operation argCodecs
      [mkDirective "unsafe" 0, mkDirective "unsafe" 2] = some ⟨2⟩ ∧
    to_batch argCodecs [mkDirective "groupBy" 0, mkDirective "groupBy" 2] = some ⟨2⟩ ∧
    to_const_field argCodecs [mkDirective "const" 0, mkDirective "const" 2] = some ⟨2⟩ :=
  ⟨(directive_occurrence_order.1 Server okCodecs.serverFromDirective {} none none none
      "server" [mkDirective "server" 1] [] (mkDirective "server" 2) rfl
      (by intro d' hd'; cases hd')).trans rfl,
   (directive_occurrence_order.2.1 okCodecs [] [mkDirective "http" 2]
      (mkDirective "http" 1) rfl (by intro d' hd'; cases hd')).trans rfl,
   directive_occurrence_order.2.2.1 argCodecs [mkDirective "modify" 0] []
      (mkDirective "modify" 2) ⟨2⟩ rfl rfl (by decide),
   directive_occurrence_order.2.2.2.1 argCodecs [mkDirective "inline" 0] []
      (mkDirective "inline" 2) ⟨2⟩ rfl rfl (by decide),
   directive_occurrence_order.2.2.2.2.1 argCodecs [mkDirective "unsafe" 0] []
      (mkDirective "unsafe" 2) ⟨2⟩ rfl rfl (by decide),
   directive_occurrence_order.2.2.2.2.2.1 argCodecs [mkDirective "groupBy" 0] []
      (mkDirective "groupBy" 2) ⟨2⟩ rfl rfl (by decide),
   directive_occurrence_order.2.2.2.2.2.2 argCodecs [mkDirective "const" 0] []
      (mkDirective "const" 2) ⟨2⟩ rfl rfl (by decide)⟩

/-- Is the declared type a list whose element is itself a list? -/
def isNestedList (ty : GqlType) : Bool :=
  match ty.base with
  | BaseType.list (BaseType.list _ _) _ => true
  | _ => false

/-- On a nested list-of-list shape, `to_type_of` degrades to the empty
string. -/
theorem to_type_of_nested (ty : GqlType) (h : isNestedList ty = true) :
    to_type_of ty = "" := by
  obtain ⟨base, nullable⟩ := ty
  cases base with
  | named n => simp [isNestedList] at h
  | list inner inner_nullable =>
    cases inner with
    | named n => simp [isNestedList] at h
    | list a b => rfl

/-- C8 counterexample: a field whose declared type is a nested list-of-list
but which carries a malformed `@http` directive does fail to lower — the
nested shape alone does not make lowering total on fields. -/
theorem to_field_nested_list_can_fail :
    isNestedList ⟨BaseType.list (BaseType.list (BaseType.named "String") true) true, true⟩ =
      true ∧
    to_field failCodecs (mkField "f"
        ⟨BaseType.list (BaseType.list (BaseType.named "String") true) true, true⟩
        [mkDirective "http" 1]).node =
      Valid.error [{ message := "bad http", trace := [] }] :=
  ⟨rfl, rfl⟩

/-- C8 amended: a nested list-of-list type never itself causes a failure
and always yields an empty `type_of`: an argument always lowers to an `Arg`
with empty `type_of`; a field with such a type lowers to a `Field` with
empty `type_of` whenever its http directives decode, and any failure of its
lowering is exactly an http decode failure, independent of the type
shape. -/
theorem nested_list_lowers_to_empty_name (c : Codecs) (ivd : InputValueDefinition)
    (fd : FieldDefinition) (h1 : isNestedList ivd.ty.node = true)
    (h2 : isNestedList fd.ty.node = true) :
    (to_arg c ivd).type_of = "" ∧
    (∀ h, to_http c fd.directives = Valid.ok h →
      ∃ f, to_field c fd = Valid.ok f ∧ f.type_of = "") ∧
    (∀ e, to_field c fd = Valid.error e → to_http c fd.directives = Valid.error e) := by
  refine ⟨?_, ?_, ?_⟩
  · simp [to_arg, to_type_of_nested ivd.ty.node h1]
  · intro h hh
    simp only [to_field, to_common_field, hh, Valid.bind]
    exact ⟨_, rfl, to_type_of_nested fd.ty.node h2⟩
  · intro e he
    simp only [to_field, to_common_field] at he
    rcases Valid.bind_eq_error.1 he with h | ⟨a, _, hfa⟩
    · exact h
    · cases hfa

/-- An argument of nested list type used by the C8 witness. -/
def nestedArg : InputValueDefinition :=
  ⟨⟨"a"⟩, ⟨⟨BaseType.list (BaseType.list (BaseType.named "String") true) true, true⟩⟩,
    none, [], none⟩

/-- C8 witness: the amended law applied at a concrete nested-list argument
and field. -/
theorem nested_list_lowers_to_empty_name_witness :
    (to_arg okCodecs nestedArg).type_of = "" :=
  (nested_list_lowers_to_empty_name okCodecs nestedArg
    (mkField "f" ⟨BaseType.list (BaseType.list (BaseType.named "String") true) true, true⟩
      []).node
    (by decide) (by decide)).1

/-- Keys already present survive the `to_args` fold. -/
theorem foldl_btInsert_keys_mono {A B : Type} (key : B → String) (val : B → A)
    (l : List B) (acc : List (String × A)) (k : String) (hk : k ∈ acc.map Prod.fst) :
    k ∈ (l.foldl (fun m b => btInsert (key b) (val b) m) acc).map Prod.fst := by
  induction l generalizing acc with
  | nil => exact hk
  | cons hd tl ih => exact ih _ (btInsert_mem_keys_of_mem _ _ _ hk)

/-- Every element folded in contributes its key. -/
theorem foldl_btInsert_keys_mem {A B : Type} (key : B → String) (val : B → A)
    (l : List B) (acc : List (String × A)) :
    ∀ b ∈ l, key b ∈ (l.foldl (fun m b => btInsert (key b) (val b) m) acc).map Prod.fst := by
  induction l generalizing acc with
  | nil => intro b hb; cases hb
  | cons hd tl ih =>
    intro b hb
    rcases List.mem_cons.1 hb with rfl | hb'
    · exact foldl_btInsert_keys_mono key val tl _ (key b) (btInsert_mem_keys_self _ _ _)
    · exact ih _ b hb'

/-- C10: argument lowering is total and never contributes an error —
`to_arg` always returns an `Arg` (a present but undecodable `@modify`
yields `modify` absent, an unconvertible default literal yields
`default_value` absent, without any error), and `to_args` maps every
declared argument name to an entry. -/
theorem to_arg_total_swallows_failures (c : Codecs) (ivd : InputValueDefinition)
    (fd : FieldDefinition)
    (hm : ∀ d ∈ ivd.directives, d.node.name.node = "modify" →
      (c.modifyFromDirective d.node).toOption = none)
    (hd : ∀ pos, ivd.default_value = some pos → c.toJsonValue pos.node = none) :
    (to_arg c ivd).modify = none ∧ (to_arg c ivd).default_value = none ∧
    (∀ arg ∈ fd.arguments, pos_name_to_string arg.node.name ∈
      (to_args c fd).map Prod.fst) := by
  refine ⟨?_, ?_, ?_⟩
  · exact findSome?_matching_none "modify" (fun x => (c.modifyFromDirective x).toOption)
      ivd.directives hm
  · simp only [to_arg]
    cases hdv : ivd.default_value with
    | none => rfl
    | some pos => simp [hd pos hdv]
  · intro arg harg
    exact foldl_btInsert_keys_mem (fun a => pos_name_to_string a.node.name)
      (fun a => to_arg c a.node) fd.arguments [] arg harg

/-- An argument with an invalid `@modify` directive and an unconvertible
default literal, used by the C10 witness. -/
def swallowedArg : InputValueDefinition :=
  ⟨⟨"a"⟩, ⟨⟨BaseType.named "Int", true⟩⟩, none, [mkDirective "modify" 1],
    some ⟨ConstValue.null⟩⟩

/-- A field declaring one argument, used by the C10 witness. -/
def oneArgField : FieldDefinition :=
  ⟨⟨"f"⟩, ⟨⟨BaseType.named "Int", true⟩⟩, none, [⟨swallowedArg⟩], []⟩

/-- C10 witness: with every decode failing, the concrete argument still
lowers, with `modify` and `default_value` absent, and its name keys the
argument map. -/
theorem to_arg_total_swallows_failures_witness :
    (to_arg failCodecs swallowedArg).modify = none ∧
    (to_arg failCodecs swallowedArg).default_value = none ∧
    "a" ∈ (to_args failCodecs oneArgField).map Prod.fst :=
  ⟨(to_arg_total_swallows_failures failCodecs swallowedArg oneArgField
      (by decide) (by decide)).1,
   (to_arg_total_swallows_failures failCodecs swallowedArg oneArgField
      (by decide) (by decide)).2.1,
   (to_arg_total_swallows_failures failCodecs swallowedArg oneArgField
      (by decide) (by decide)).2.2 ⟨swallowedArg⟩ (by decide)⟩

/-- `Valid.map` succeeds exactly on a success. -/
theorem Valid.map_eq_ok {A B : Type} {f : A → B} {v : Valid A} {b : B} :
    Valid.map f v = Valid.ok b ↔ ∃ a, v = Valid.ok a ∧ b = f a := by
  cases v with
  | ok a => simp [Valid.map, eq_comm]
  | error e => simp [Valid.map]

/-- Is a type definition a union definition? -/
def isUnionKind : TypeKind → Bool
  | TypeKind.union _ => true
  | _ => false

/-- Only a non-union definition lowers to an insertable config type. -/
theorem to_type_opt_some_not_union (c : Codecs) (td : TypeDefinition)
    (t : ConfigType) (h : to_type_opt c td = Valid.ok (some t)) :
    isUnionKind td.kind = false := by
  cases hk : td.kind with
  | union u => rw [to_type_opt, hk] at h; cases h
  | scalar => rfl
  | object o => rfl
  | interface i => rfl
  | enum e => rfl
  | inputObject io => rfl

/-- A non-union definition that lowers successfully always produces an
insertable config type. -/
theorem to_type_opt_not_union_some (c : Codecs) (td : TypeDefinition)
    (o : Option ConfigType) (hu : isUnionKind td.kind = false)
    (h : to_type_opt c td = Valid.ok o) : ∃ t, o = some t := by
  cases hk : td.kind with
  | union u => rw [hk] at hu; cases hu
  | scalar =>
    rw [to_type_opt, hk] at h
    exact ⟨to_scalar_type, (Valid.ok.inj h).symm⟩
  | object ot =>
    rw [to_type_opt, hk] at h
    rcases Valid.map_eq_ok.1 h with ⟨a, _, hb⟩
    exact ⟨a, hb⟩
  | interface it =>
    rw [to_type_opt, hk] at h
    rcases Valid.map_eq_ok.1 h with ⟨a, _, hb⟩
    exact ⟨a, hb⟩
  | enum et =>
    rw [to_type_opt, hk] at h
    exact ⟨to_enum et, (Valid.ok.inj h).symm⟩
  | inputObject iot =>
    rw [to_type_opt, hk] at h
    rcases Valid.map_eq_ok.1 h with ⟨a, _, hb⟩
    exact ⟨a, hb⟩

/-- Every key of the lowered type table names a non-union definition or was
already a key of the accumulator. -/
theorem to_types_go_keys (c : Codecs) (tds : List (Positioned TypeDefinition))
    (acc m : List (String × ConfigType)) (hok : to_types_go c tds acc = Valid.ok m) :
    ∀ k ∈ m.map Prod.fst,
      (∃ td ∈ tds, td.node.name.node = k ∧ isUnionKind td.node.kind = false) ∨
      k ∈ acc.map Prod.fst := by
  induction tds generalizing acc with
  | nil =>
    intro k hk
    rw [to_types_go] at hok
    exact Or.inr ((Valid.ok.inj hok) ▸ hk)
  | cons td tl ih =>
    intro k hk
    rw [to_types_go] at hok
    rcases Valid.bind_eq_ok.1 hok with ⟨o, ho, hrest⟩
    cases o with
    | some t =>
      rcases ih _ hrest k hk with ⟨td', htd', hn, hu⟩ | hacc
      · exact Or.inl ⟨td', List.mem_cons_of_mem td htd', hn, hu⟩
      · rcases btInsert_keys_subset _ _ _ k hacc with hkk | hkk
        · exact Or.inl ⟨td, List.mem_cons_self td tl,
            hkk ▸ rfl, to_type_opt_some_not_union c td.node t ho⟩
        · exact Or.inr hkk
    | none =>
      rcases ih _ hrest k hk with ⟨td', htd', hn, hu⟩ | hacc
      · exact Or.inl ⟨td', List.mem_cons_of_mem td htd', hn, hu⟩
      · exact Or.inr hacc

/-- Every key of the union table names a union definition or was already a
key of the accumulator. -/
theorem to_union_types_go_keys (tds : List (Positioned TypeDefinition))
    (acc : List (String × Union)) :
    ∀ k ∈ (to_union_types_go tds acc).map Prod.fst,
      (∃ td ∈ tds, td.node.name.node = k ∧ isUnionKind td.node.kind = true) ∨
      k ∈ acc.map Prod.fst := by
  induction tds generalizing acc with
  | nil => intro k hk; exact Or.inr hk
  | cons td tl ih =>
    intro k hk
    cases hkind : td.node.kind with
    | union u =>
      rw [to_union_types_go, hkind] at hk
      rcases ih _ k hk with ⟨td', htd', hn, hu⟩ | hacc
      · exact Or.inl ⟨td', List.mem_cons_of_mem td htd', hn, hu⟩
      · rcases btInsert_keys_subset _ _ _ k hacc with hkk | hkk
        · exact Or.inl ⟨td, List.mem_cons_self td tl, hkk ▸ rfl, by rw [hkind]; rfl⟩
        · exact Or.inr hkk
    | scalar =>
      rw [to_union_types_go, hkind] at hk
      rcases ih _ k hk with ⟨td', htd', hn, hu⟩ | hacc
      · exact Or.inl ⟨td', List.mem_cons_of_mem td htd', hn, hu⟩
      · exact Or.inr hacc
    | object o =>
      rw [to_union_types_go, hkind] at hk
      rcases ih _ k hk with ⟨td', htd', hn, hu⟩ | hacc
      · exact Or.inl ⟨td', List.mem_cons_of_mem td htd', hn, hu⟩
      · exact Or.inr hacc
    | interface i =>
      rw [to_union_types_go, hkind] at hk
      rcases ih _ k hk with ⟨td', htd', hn, hu⟩ | hacc
      · exact Or.inl ⟨td', List.mem_cons_of_mem td htd', hn, hu⟩
      · exact Or.inr hacc
    | enum e =>
      rw [to_union_types_go, hkind] at hk
      rcases ih _ k hk with ⟨td', htd', hn, hu⟩ | hacc
      · exact Or.inl ⟨td', List.mem_cons_of_mem td htd', hn, hu⟩
      · exact Or.inr hacc
    | inputObject io =>
      rw [to_union_types_go, hkind] at hk
      rcases ih _ k hk with ⟨td', htd', hn, hu⟩ | hacc
      · exact Or.inl ⟨td', List.mem_cons_of_mem td htd', hn, hu⟩
      · exact Or.inr hacc

/-- Keys of the accumulator survive the union-table loop. -/
theorem to_union_types_go_keys_mono (tds : List (Positioned TypeDefinition))
    (acc : List (String × Union)) (k : String) (hk : k ∈ acc.map Prod.fst) :
    k ∈ (to_union_types_go tds acc).map Prod.fst := by
  induction tds generalizing acc with
  | nil => exact hk
  | cons td tl ih =>
    cases hkind : td.node.kind with
    | union u => rw [to_union_types_go, hkind]; exact ih _ (btInsert_mem_keys_of_mem _ _ _ hk)
    | scalar => rw [to_union_types_go, hkind]; exact ih _ hk
    | object o => rw [to_union_types_go, hkind]; exact ih _ hk
    | interface i => rw [to_union_types_go, hkind]; exact ih _ hk
    | enum e => rw [to_union_types_go, hkind]; exact ih _ hk
    | inputObject io => rw [to_union_types_go, hkind]; exact ih _ hk

/-- Every union definition contributes its name to the union table. -/
theorem to_union_types_go_mem (tds : List (Positioned TypeDefinition))
    (acc : List (String × Union)) :
    ∀ td ∈ tds, isUnionKind td.node.kind = true →
      td.node.name.node ∈ (to_union_types_go tds acc).map Prod.fst := by
  induction tds generalizing acc with
  | nil => intro td htd; cases htd
  | cons hd tl ih =>
    intro td htd hu
    rcases List.mem_cons.1 htd with rfl | htd'
    · cases hkind : td.node.kind with
      | union u =>
        rw [to_union_types_go, hkind]
        exact to_union_types_go_keys_mono tl _ _ (btInsert_mem_keys_self _ _ _)
      | scalar => rw [hkind] at hu; cases hu
      | object o => rw [hkind] at hu; cases hu
      | interface i => rw [hkind] at hu; cases hu
      | enum e => rw [hkind] at hu; cases hu
      | inputObject io => rw [hkind] at hu; cases hu
    · cases hkind : hd.node.kind with
      | union u => rw [to_union_types_go, hkind]; exact ih _ td htd' hu
      | scalar => rw [to_union_types_go, hkind]; exact ih _ td htd' hu
      | object o => rw [to_union_types_go, hkind]; exact ih _ td htd' hu
      | interface i => rw [to_union_types_go, hkind]; exact ih _ td htd' hu
      | enum e => rw [to_union_types_go, hkind]; exact ih _ td htd' hu
      | inputObject io => rw [to_union_types_go, hkind]; exact ih _ td htd' hu

/-- Keys of the accumulator survive the type-table loop on success. -/
theorem to_types_go_keys_mono (c : Codecs) (tds : List (Positioned TypeDefinition))
    (acc m : List (String × ConfigType)) (hok : to_types_go c tds acc = Valid.ok m)
    (k : String) (hk : k ∈ acc.map Prod.fst) : k ∈ m.map Prod.fst := by
  induction tds generalizing acc with
  | nil =>
    rw [to_types_go] at hok
    exact (Valid.ok.inj hok) ▸ hk
  | cons td tl ih =>
    rw [to_types_go] at hok
    rcases Valid.bind_eq_ok.1 hok with ⟨o, ho, hrest⟩
    cases o with
    | some t => exact ih _ hrest (btInsert_mem_keys_of_mem _ _ _ hk)
    | none => exact ih _ hrest hk

/-- Every non-union definition contributes its name to the type table when
lowering succeeds. -/
theorem to_types_go_mem (c : Codecs) (tds : List (Positioned TypeDefinition))
    (acc m : List (String × ConfigType)) (hok : to_types_go c tds acc = Valid.ok m) :
    ∀ td ∈ tds, isUnionKind td.node.kind = false →
      td.node.name.node ∈ m.map Prod.fst := by
  induction tds generalizing acc with
  | nil => intro td htd; cases htd
  | cons hd tl ih =>
    intro td htd hu
    rw [to_types_go] at hok
    rcases Valid.bind_eq_ok.1 hok with ⟨o, ho, hrest⟩
    rcases List.mem_cons.1 htd with rfl | htd'
    · rcases to_type_opt_not_union_some c td.node o hu ho with ⟨t, rfl⟩
      exact to_types_go_keys_mono c tl _ m hrest _ (btInsert_mem_keys_self _ _ _)
    · cases o with
      | some t => exact ih _ hrest td htd' hu
      | none => exact ih _ hrest td htd' hu

/-- C6 counterexample: a document defining both a scalar `Foo` and a union
`Foo` puts the name `Foo` in BOTH the type table and the union table. -/
theorem union_and_type_share_name_cex :
    to_types okCodecs [⟨⟨⟨"Foo"⟩, none, TypeKind.scalar⟩⟩,
        ⟨⟨⟨"Foo"⟩, none, TypeKind.union ⟨[]⟩⟩⟩] =
      Valid.ok [("Foo", { scalar := true })] ∧
    to_union_types [⟨⟨⟨"Foo"⟩, none, TypeKind.scalar⟩⟩,
        ⟨⟨⟨"Foo"⟩, none, TypeKind.union ⟨[]⟩⟩⟩] =
      [("Foo", { types := [], doc := none })] :=
  ⟨rfl, rfl⟩

/-- C6 amended: every union definition keys the union table and only the
union table; every non-union definition keys the type table and only the
type table; and, provided no union definition shares its name with a
non-union definition, no name keys both tables. -/
theorem union_type_table_separation (c : Codecs)
    (tds : List (Positioned TypeDefinition)) (m : List (String × ConfigType))
    (hok : to_types c tds = Valid.ok m) :
    (∀ td ∈ tds, isUnionKind td.node.kind = true →
      td.node.name.node ∈ (to_union_types tds).map Prod.fst) ∧
    (∀ td ∈ tds, isUnionKind td.node.kind = false →
      td.node.name.node ∈ m.map Prod.fst) ∧
    (∀ k ∈ m.map Prod.fst,
      ∃ td ∈ tds, td.node.name.node = k ∧ isUnionKind td.node.kind = false) ∧
    (∀ k ∈ (to_union_types tds).map Prod.fst,
      ∃ td ∈ tds, td.node.name.node = k ∧ isUnionKind td.node.kind = true) ∧
    ((∀ td ∈ tds, ∀ td' ∈ tds, isUnionKind td.node.kind = true →
        isUnionKind td'.node.kind = false → td.node.name.node ≠ td'.node.name.node) →
      ∀ k ∈ m.map Prod.fst, k ∉ (to_union_types tds).map Prod.fst) := by
  have h3 : ∀ k ∈ m.map Prod.fst,
      ∃ td ∈ tds, td.node.name.node = k ∧ isUnionKind td.node.kind = false := by
    intro k hk
    rcases to_types_go_keys c tds [] m hok k hk with h | h
    · exact h
    · cases h
  have h4 : ∀ k ∈ (to_union_types tds).map Prod.fst,
      ∃ td ∈ tds, td.node.name.node = k ∧ isUnionKind td.node.kind = true := by
    intro k hk
    rcases to_union_types_go_keys tds [] k hk with h | h
    · exact h
    · cases h
  refine ⟨fun td htd hu => to_union_types_go_mem tds [] td htd hu,
    fun td htd hu => to_types_go_mem c tds [] m hok td htd hu, h3, h4, ?_⟩
  intro hdisj k hk hku
  rcases h3 k hk with ⟨td', htd', hn', hu'⟩
  rcases h4 k hku with ⟨td, htd, hn, hu⟩
  exact hdisj td htd td' htd' hu hu' (by rw [hn, hn'])

/-- C6 witness: on a document with a scalar `A` and a union `U`, `A` keys
the type table and not the union table. -/
theorem union_type_table_separation_witness :
    "A" ∉ (to_union_types [⟨⟨⟨"A"⟩, none, TypeKind.scalar⟩⟩,
      ⟨⟨⟨"U"⟩, none, TypeKind.union ⟨[]⟩⟩⟩]).map Prod.fst :=
  (union_type_table_separation okCodecs
    [⟨⟨⟨"A"⟩, none, TypeKind.scalar⟩⟩, ⟨⟨⟨"U"⟩, none, TypeKind.union ⟨[]⟩⟩⟩]
    [("A", { scalar := true })] rfl).2.2.2.2 (by decide) "A" (by decide)

/-- The name/value pairs a definition list contributes to the type table,
in input order: one pair per definition whose lowering yields an insertable
config type. -/
def typePairs (c : Codecs) (tds : List (Positioned TypeDefinition)) :
    List (String × ConfigType) :=
  tds.filterMap fun td =>
    match (to_type_opt c td.node).toOption with
    | some (some t) => some (td.node.name.node, t)
    | _ => none

/-- If the type-table loop succeeds, every definition lowered
successfully. -/
theorem to_types_go_all_ok (c : Codecs) (tds : List (Positioned TypeDefinition))
    (acc m : List (String × ConfigType)) (hok : to_types_go c tds acc = Valid.ok m) :
    ∀ td ∈ tds, ∃ o, to_type_opt c td.node = Valid.ok o := by
  induction tds generalizing acc with
  | nil => intro td htd; cases htd
  | cons hd tl ih =>
    intro td htd
    rw [to_types_go] at hok
    rcases Valid.bind_eq_ok.1 hok with ⟨o, ho, hrest⟩
    rcases List.mem_cons.1 htd with rfl | htd'
    · exact ⟨o, ho⟩
    · cases o with
      | some t => exact ih _ hrest td htd'
      | none => exact ih _ hrest td htd'

/-- If every definition lowers successfully, the type-table loop succeeds
from any accumulator. -/
theorem to_types_go_total (c : Codecs) (tds : List (Positioned TypeDefinition))
    (hall : ∀ td ∈ tds, ∃ o, to_type_opt c td.node = Valid.ok o) :
    ∀ acc, ∃ m, to_types_go c tds acc = Valid.ok m := by
  induction tds with
  | nil => intro acc; exact ⟨acc, rfl⟩
  | cons hd tl ih =>
    intro acc
    rcases hall hd (List.mem_cons_self hd tl) with ⟨o, ho⟩
    have htl : ∀ td ∈ tl, ∃ o, to_type_opt c td.node = Valid.ok o :=
      fun td htd => hall td (List.mem_cons_of_mem hd htd)
    cases o with
    | some t =>
      rcases ih htl (btInsert (pos_name_to_string hd.node.name) t acc) with ⟨m, hm⟩
      exact ⟨m, by rw [to_types_go, ho]; exact hm⟩
    | none =>
      rcases ih htl acc with ⟨m, hm⟩
      exact ⟨m, by rw [to_types_go, ho]; exact hm⟩

/-- With pairwise-distinct names fresh for the accumulator, the loop's
result is, up to permutation, the contributed pairs on top of the
accumulator. -/
theorem to_types_go_perm (c : Codecs) (tds : List (Positioned TypeDefinition))
    (acc m : List (String × ConfigType)) (hok : to_types_go c tds acc = Valid.ok m)
    (hnodup : (tds.map fun td => td.node.name.node).Nodup)
    (hdisj : ∀ td ∈ tds, td.node.name.node ∉ acc.map Prod.fst) :
    m.Perm (typePairs c tds ++ acc) := by
  induction tds generalizing acc m with
  | nil =>
    rw [to_types_go] at hok
    have hacc : acc = m := Valid.ok.inj hok
    subst hacc
    simpa [typePairs] using List.Perm.refl acc
  | cons td tl ih =>
    rw [to_types_go] at hok
    rcases Valid.bind_eq_ok.1 hok with ⟨o, ho, hrest⟩
    rw [List.map_cons, List.nodup_cons] at hnodup
    obtain ⟨hhd, htl⟩ := hnodup
    have hfresh : td.node.name.node ∉ acc.map Prod.fst :=
      hdisj td (List.mem_cons_self td tl)
    cases o with
    | some t =>
      have hdisj' : ∀ td' ∈ tl, td'.node.name.node ∉
          (btInsert (pos_name_to_string td.node.name) t acc).map Prod.fst := by
        intro td' htd' hmem
        rcases btInsert_keys_subset _ _ _ _ hmem with heq | hmem'
        · have hmm : td'.node.name.node ∈ tl.map fun x => x.node.name.node :=
            List.mem_map_of_mem (fun x => x.node.name.node) htd'
          rw [heq] at hmm
          exact hhd hmm
        · exact hdisj td' (List.mem_cons_of_mem td htd') hmem'
      have h1 := ih _ _ hrest htl hdisj'
      have h2 : (btInsert (pos_name_to_string td.node.name) t acc).Perm
          ((td.node.name.node, t) :: acc) := btInsert_perm_fresh _ _ _ hfresh
      have h3 : (typePairs c tl ++ btInsert (pos_name_to_string td.node.name) t acc).Perm
          ((td.node.name.node, t) :: (typePairs c tl ++ acc)) :=
        (h2.append_left (typePairs c tl)).trans List.perm_middle
      have h4 : typePairs c (td :: tl) = (td.node.name.node, t) :: typePairs c tl := by
        simp [typePairs, List.filterMap_cons, ho, Valid.toOption]
      rw [h4]
      exact (h1.trans h3)
    | none =>
      have hdisj' : ∀ td' ∈ tl, td'.node.name.node ∉ acc.map Prod.fst :=
        fun td' htd' => hdisj td' (List.mem_cons_of_mem td htd')
      have h1 := ih _ _ hrest htl hdisj'
      have h4 : typePairs c (td :: tl) = typePairs c tl := by
        simp [typePairs, List.filterMap_cons, ho, Valid.toOption]
      rw [h4]
      exact h1

/-- The loop keeps the accumulator strictly key-sorted. -/
theorem to_types_go_sorted (c : Codecs) (tds : List (Positioned TypeDefinition))
    (acc m : List (String × ConfigType)) (hok : to_types_go c tds acc = Valid.ok m)
    (hs : acc.Pairwise (fun a b => strLt a.1 b.1 = true)) :
    m.Pairwise (fun a b : String × ConfigType => strLt a.1 b.1 = true) := by
  induction tds generalizing acc with
  | nil =>
    rw [to_types_go] at hok
    exact (Valid.ok.inj hok) ▸ hs
  | cons td tl ih =>
    rw [to_types_go] at hok
    rcases Valid.bind_eq_ok.1 hok with ⟨o, ho, hrest⟩
    cases o with
    | some t => exact ih _ hrest (btInsert_sorted _ _ _ hs)
    | none => exact ih _ hrest hs

/-- Without unions, every successfully lowered definition contributes
exactly one pair. -/
theorem typePairs_length_eq (c : Codecs) (tds : List (Positioned TypeDefinition))
    (hnounion : ∀ td ∈ tds, isUnionKind td.node.kind = false)
    (hall : ∀ td ∈ tds, ∃ o, to_type_opt c td.node = Valid.ok o) :
    (typePairs c tds).length = tds.length := by
  induction tds with
  | nil => rfl
  | cons td tl ih =>
    rcases hall td (List.mem_cons_self td tl) with ⟨o, ho⟩
    rcases to_type_opt_not_union_some c td.node o
      (hnounion td (List.mem_cons_self td tl)) ho with ⟨t, rfl⟩
    have h4 : typePairs c (td :: tl) = (td.node.name.node, t) :: typePairs c tl := by
      simp [typePairs, List.filterMap_cons, ho, Valid.toOption]
    rw [h4, List.length_cons,
      ih (fun td' htd' => hnounion td' (List.mem_cons_of_mem td htd'))
        (fun td' htd' => hall td' (List.mem_cons_of_mem td htd'))]
    rfl

/-- Strict key order is antisymmetric (vacuously: it is asymmetric). -/
instance instKeyLtAntisymm :
    IsAntisymm (String × ConfigType) (fun a b => strLt a.1 b.1 = true) :=
  ⟨fun a b h1 h2 => (strLt_asymm a.1 b.1 h1 h2).elim⟩

/-- C5: on N distinct non-union definitions whose lowering succeeds, the
type table has exactly N entries keyed by name, is strictly sorted by name
(hence iterated in name-sorted order), and permuting the input definitions
leaves the table unchanged. -/
theorem to_types_table_properties (c : Codecs)
    (tds tds' : List (Positioned TypeDefinition)) (m : List (String × ConfigType))
    (hnodup : (tds.map fun td => td.node.name.node).Nodup)
    (hnounion : ∀ td ∈ tds, isUnionKind td.node.kind = false)
    (hperm : tds.Perm tds')
    (hok : to_types c tds = Valid.ok m) :
    m.length = tds.length ∧ m.Pairwise (fun a b => strLt a.1 b.1 = true) ∧
    to_types c tds' = Valid.ok m := by
  have hall : ∀ td ∈ tds, ∃ o, to_type_opt c td.node = Valid.ok o :=
    to_types_go_all_ok c tds [] m hok
  have hall' : ∀ td ∈ tds', ∃ o, to_type_opt c td.node = Valid.ok o :=
    fun td htd => hall td (hperm.mem_iff.2 htd)
  obtain ⟨m', hok'⟩ := to_types_go_total c tds' hall' []
  have hperm1 : m.Perm (typePairs c tds) := by
    simpa using to_types_go_perm c tds [] m hok hnodup (by simp)
  have hnodup' : (tds'.map fun td => td.node.name.node).Nodup :=
    (hperm.map fun td => td.node.name.node).nodup_iff.1 hnodup
  have hperm2 : m'.Perm (typePairs c tds') := by
    simpa using to_types_go_perm c tds' [] m' hok' hnodup' (by simp)
  have hpp : (typePairs c tds).Perm (typePairs c tds') := hperm.filterMap _
  have hs1 : m.Pairwise (fun a b : String × ConfigType => strLt a.1 b.1 = true) :=
    to_types_go_sorted c tds [] m hok (by simp)
  have hs2 : m'.Pairwise (fun a b : String × ConfigType => strLt a.1 b.1 = true) :=
    to_types_go_sorted c tds' [] m' hok' (by simp)
  have heq : m = m' :=
    List.eq_of_perm_of_sorted (hperm1.trans (hpp.trans hperm2.symm)) hs1 hs2
  refine ⟨?_, hs1, heq ▸ hok'⟩
  rw [hperm1.length_eq]
  exact typePairs_length_eq c tds hnounion hall

/-- C5 witness: two scalars given in reverse name order lower to the same
two-entry, name-sorted table as in name order. -/
theorem to_types_table_properties_witness :
    ([("A", { scalar := true }), ("B", { scalar := true })] :
      List (String × ConfigType)).length =
      [(⟨⟨⟨"B"⟩, none, TypeKind.scalar⟩⟩ : Positioned TypeDefinition),
        ⟨⟨⟨"A"⟩, none, TypeKind.scalar⟩⟩].length ∧
    ([("A", { scalar := true }), ("B", { scalar := true })] :
      List (String × ConfigType)).Pairwise (fun a b => strLt a.1 b.1 = true) ∧
    to_types okCodecs [⟨⟨⟨"A"⟩, none, TypeKind.scalar⟩⟩,
      ⟨⟨⟨"B"⟩, none, TypeKind.scalar⟩⟩] =
      Valid.ok [("A", { scalar := true }), ("B", { scalar := true })] :=
  to_types_table_properties okCodecs
    [⟨⟨⟨"B"⟩, none, TypeKind.scalar⟩⟩, ⟨⟨⟨"A"⟩, none, TypeKind.scalar⟩⟩]
    [⟨⟨⟨"A"⟩, none, TypeKind.scalar⟩⟩, ⟨⟨⟨"B"⟩, none, TypeKind.scalar⟩⟩]
    [("A", { scalar := true }), ("B", { scalar := true })]
    (by decide) (by decide) (by decide) rfl

end Tailcall
